import Mathlib

/-!
# Verification of the ToyTfIdfGuesser core (src/tfidf/toytfidf_guesser.py)

Shallow embedding of the TF-IDF guesser: the engine state mirrors the
attributes set by `ToyTfIdfGuesser.__init__`, and each method of the class is
translated into a Lean function on that state.  Python dictionaries,
`collections.Counter`/`nltk.FreqDist` tables are modelled as insertion-ordered
association lists (Python 3.7+ dicts preserve insertion order, and
`Counter.items()` iterates in insertion order).  Python floats are modelled as
real numbers; fallible code returns `Except`.

The tokenizer and normalizer are pluggable external collaborators (spec §6),
so they are carried as function-valued fields of the engine state.
-/

namespace ToyTfIdf

/-- Error taxonomy.  Python `assert`/`KeyError`/`AttributeError`/`ValueError`
failure sites of the source are mapped to the spec's named errors (spec §7):
state-precondition asserts to `invalidState`, the vocabulary-size assert in
`finalize_vocab` to `capacity`, the similarity search over a 0-row matrix to
`emptyCorpus`, the range assert in `vocab_lookup` to `outOfRange`. -/
inductive PyErr where
  | invalidState
  | capacity
  | emptyCorpus
  | outOfRange
  | keyError
  | attributeError
  | valueError
  deriving DecidableEq, Repr

/-- Python `k in d` / `d[k]` on an insertion-ordered dict. -/
def alookup {κ ν : Type} [DecidableEq κ] : List (κ × ν) → κ → Option ν
  | [], _ => none
  | (k, v) :: rest, w => if k = w then some v else alookup rest w

/-- Python dict assignment `d[k] = v`: updates the value in place if the key
exists (keeping its position), otherwise appends the new pair at the end. -/
def aset {κ ν : Type} [DecidableEq κ] : List (κ × ν) → κ → ν → List (κ × ν)
  | [], k, v => [(k, v)]
  | (k', v') :: rest, k, v =>
    if k' = k then (k', v) :: rest else (k', v') :: aset rest k v

/-- `Counter`/`FreqDist` update `c[k] += n` (missing keys read as 0 and the
new key is appended at the end, matching `collections.Counter`). -/
def aincr {κ : Type} [DecidableEq κ] (d : List (κ × Nat)) (k : κ) (n : Nat) :
    List (κ × Nat) :=
  aset d k ((alookup d k).getD 0 + n)

/-- The sentinel unknown-token string `kUNK = "<UNK>"`. -/
def kUNK : String := "<UNK>"

/-- `log10(x) = log(x)/log(10)` (module-level helper in the source). -/
noncomputable def log10 (x : ℝ) : ℝ := Real.log x / Real.log 10

/-- State of a `ToyTfIdfGuesser` instance: one field per attribute assigned in
the source.  `doc_freq` models the `_doc_freq` attribute read by
`inv_docfreq`; it is an `Option` because `__init__` never creates it and no
method of the class ever assigns it, so in every reachable state it is
`none` (reading it raises `AttributeError`). -/
structure Engine where
  max_vocab_size : Nat
  unk_cutoff : Nat
  tokenizer : String → List String
  normalizer : String → String
  vocab : List (String × Nat)
  vocab_size : Int
  total_docs : Nat
  doc_counts : List (String × Nat)
  doc_freq : Option (List (Nat × Nat))
  vocab_final : Bool
  docs_final : Bool
  doc_vectors : Option (List (List ℝ))
  questions : List String
  answers : List String

/-- `__init__`: the placeholder vocabulary size is `-1`, all tables empty,
no `_doc_freq` attribute, nothing finalized. -/
def initEngine (maxVocab unkCutoff : Nat) (tok : String → List String)
    (norm : String → String) : Engine :=
  { max_vocab_size := maxVocab
    unk_cutoff := unkCutoff
    tokenizer := tok
    normalizer := norm
    vocab := []
    vocab_size := -1
    total_docs := 0
    doc_counts := []
    doc_freq := none
    vocab_final := false
    docs_final := false
    doc_vectors := none
    questions := []
    answers := [] }

/-- `vocab_seen(word, count)`: asserts the vocabulary is not finalized, then
does `self._doc_counts[word] += count`. -/
def vocab_seen (e : Engine) (word : String) (count : Nat) :
    Except PyErr Engine :=
  if e.vocab_final then .error .invalidState
  else .ok { e with doc_counts := aincr e.doc_counts word count }

/-- `sorted(items, key=lambda x: x[1], reverse=True)`: stable sort by
descending count.  `List.mergeSort` with `b.2 ≤ a.2` is a stable sort that
puts higher counts first and keeps the original (insertion) order of
equal-count entries, exactly like Python's stable `sorted` with
`reverse=True`. -/
def sortByCountDesc (l : List (String × Nat)) : List (String × Nat) :=
  l.mergeSort (fun a b => decide (b.2 ≤ a.2))

/-- `finalize_vocab()` from the source:
sort the accumulated counts by descending count, slice the first
`max_vocab_size` entries, keep those with `count >= unk_cutoff` (the dict
comprehension enumerates the *slice*, so each kept word is paired with its
index in the slice), then `self._vocab[kUNK] = len(self._vocab)` and
`self._vocab_size = len(self._vocab)`, and finally
`assert self._vocab_size < self._max_vocab_size` before setting
`_vocab_final = True`.  (On the failing assert the Python object is left with
the oversized vocabulary but `_vocab_final` still false; the `Except` model
only records that the call fails.) -/
def finalize_vocab (e : Engine) : Except PyErr Engine :=
  let sorted := sortByCountDesc e.doc_counts
  let sliced := sorted.take e.max_vocab_size
  let vocab1 := (sliced.enum.filter (fun p => decide (e.unk_cutoff ≤ p.2.2))).foldl
      (fun d p => aset d p.2.1 p.1) []
  let vocab2 := aset vocab1 kUNK vocab1.length
  if vocab2.length < e.max_vocab_size then
    .ok { e with vocab := vocab2, vocab_size := (vocab2.length : Int),
                 vocab_final := true }
  else .error .capacity

/-- `scan_document(text)` from the source: asserts `_vocab_final` and
`not _docs_final`, then for every token of the *raw* tokenizer output
(no normalization) does `self._doc_counts[word] += 1` where `word` is the
token itself if it is a key of `_vocab` and the string `kUNK` otherwise;
finally increments `_total_docs` by one.  Note that it increments the
*global count table* `_doc_counts`, once per occurrence, keyed by string. -/
def scan_document (e : Engine) (text : String) : Except PyErr Engine :=
  if !e.vocab_final then .error .invalidState
  else if e.docs_final then .error .invalidState
  else
    let counts := (e.tokenizer text).foldl
      (fun c w => aincr c (if (alookup e.vocab w).isSome then w else kUNK) 1)
      e.doc_counts
    .ok { e with doc_counts := counts, total_docs := e.total_docs + 1 }

/-- `finalize_docs()`: sets `_docs_final = True`.  (The subsequent
`logging.debug` loop eagerly evaluates `self.inv_docfreq(...)` on up to ten
vocabulary entries — diagnostics the spec excludes from the contract (§9);
with the `_doc_freq` attribute missing those calls raise; the C2 analysis
below shows the failure.) -/
def finalize_docs (e : Engine) : Engine := { e with docs_final := true }

/-- The pure value computed on line 253 of the source:
`log10(total / (1 + doc_freq)) if doc_freq else 0`. -/
noncomputable def inv_df (total df : Nat) : ℝ :=
  if df = 0 then 0 else log10 ((total : ℝ) / (1 + (df : ℝ)))

/-- `inv_docfreq(word)` from the source: asserts `_docs_final`, then reads
`self._doc_freq.get(word, 0)`.  Since no code of the class ever assigns
`_doc_freq`, the attribute read fails (`AttributeError`) whenever
`doc_freq = none`; when a table is present the returned value is
`inv_df total_docs df`. -/
noncomputable def inv_docfreq (e : Engine) (word : Nat) : Except PyErr ℝ :=
  if !e.docs_final then .error .invalidState
  else
    match e.doc_freq with
    | none => .error .attributeError
    | some t => .ok (inv_df e.total_docs ((alookup t word).getD 0))

/-- `vocab_lookup(word)` from the source: asserts `_vocab_final`; returns
`_vocab[word]` if present else `_vocab[kUNK]` (a `KeyError` if even the
unknown token is absent); asserts the result is in `[0, _vocab_size)`. -/
def vocab_lookup (e : Engine) (word : String) : Except PyErr Nat :=
  if !e.vocab_final then .error .invalidState
  else
    match alookup e.vocab word with
    | some i => if (i : Int) < e.vocab_size then .ok i else .error .outOfRange
    | none =>
      match alookup e.vocab kUNK with
      | some i => if (i : Int) < e.vocab_size then .ok i else .error .outOfRange
      | none => .error .keyError

/-- `np.zeros(n)`: a vector of `n` real zeros; numpy rejects a negative
dimension (`_vocab_size` is `-1` before finalization). -/
def npZeros (n : Int) : Except PyErr (List ℝ) :=
  if n < 0 then .error .valueError else .ok (List.replicate n.toNat 0)

/-- Distinct elements of a list in order of first occurrence: the iteration
order of `FreqDist(iterable)` (a `Counter` keeps the first-occurrence order
of its keys). -/
def dedupFirst : List String → List String
  | [] => []
  | x :: xs => x :: dedupFirst (xs.filter (fun y => decide (y ≠ x)))
termination_by l => l.length
decreasing_by
  simp only [List.length_cons]
  exact Nat.lt_succ_of_le (xs.length_filter_le _)

/-- Number of occurrences of `w` in `l` (`FreqDist` count of a key). -/
def countA (l : List String) (w : String) : Nat :=
  (l.filter (fun y => decide (y = w))).length

/-- The `for word in doc_frequency:` loop of `embed`: for each distinct
in-vocabulary token `w`, look up its id and set
`vector[id] = doc_frequency.freq(w) * inv_docfreq(id)`, where
`freq(w) = count of w / number of in-vocabulary tokens`. -/
noncomputable def embedLoop (e : Engine) (toks : List String) :
    List String → List ℝ → Except PyErr (List ℝ)
  | [], v => .ok v
  | w :: ws, v =>
    match vocab_lookup e w with
    | .error er => .error er
    | .ok idx =>
      match inv_docfreq e idx with
      | .error er => .error er
      | .ok idf =>
        embedLoop e toks ws
          (v.set idx (((countA toks w : ℝ) / (toks.length : ℝ)) * idf))

/-- `embed(text)` from the source:
`vector = np.zeros(self._vocab_size)`;
`doc_frequency = FreqDist(x for x in self._tokenizer(text) if x in self._vocab)`
(raw tokens, *no* normalization, and out-of-vocabulary tokens are dropped,
not mapped to the unknown token); then the loop `embedLoop`. -/
noncomputable def embed (e : Engine) (text : String) : Except PyErr (List ℝ) :=
  match npZeros e.vocab_size with
  | .error er => .error er
  | .ok v0 =>
    let toks := (e.tokenizer text).filter (fun w => (alookup e.vocab w).isSome)
    embedLoop e toks (dedupFirst toks) v0

/-- The `tokenize` generator, consumed into a list: each raw token is
normalized; before vocabulary finalization the normalized string is yielded,
afterwards `vocab_lookup` of the normalized string is yielded (an exception
raised by a lookup aborts the whole generator). -/
def tokenizeLoop (e : Engine) : List String → Except PyErr (List (String ⊕ Nat))
  | [] => .ok []
  | t :: ts =>
    if e.vocab_final then
      match vocab_lookup e (e.normalizer t) with
      | .error er => .error er
      | .ok i =>
        match tokenizeLoop e ts with
        | .error er => .error er
        | .ok rest => .ok (.inr i :: rest)
    else
      match tokenizeLoop e ts with
      | .error er => .error er
      | .ok rest => .ok (.inl (e.normalizer t) :: rest)

/-- `tokenize(sent)` from the source, as the list of yielded items. -/
def tokenize (e : Engine) (sent : String) : Except PyErr (List (String ⊕ Nat)) :=
  tokenizeLoop e (e.tokenizer sent)

/-- Dot product of two vectors (`zipWith` truncates at the shorter length;
the source only ever compares vectors of equal length `_vocab_size`). -/
noncomputable def dotL (a b : List ℝ) : ℝ := (List.zipWith (· * ·) a b).sum

/-- Euclidean norm. -/
noncomputable def normL (a : List ℝ) : ℝ := Real.sqrt (dotL a a)

/-- `sklearn.metrics.pairwise.cosine_similarity` of two vectors: the dot
product over the product of norms, with a zero-norm vector treated as having
similarity 0 (sklearn normalizes rows and leaves all-zero rows at zero). -/
noncomputable def cosSim (a b : List ℝ) : ℝ :=
  if normL a = 0 ∨ normL b = 0 then 0 else dotL a b / (normL a * normL b)

/-- Fold of `np.argmax`: keeps the current best on ties (`bv < x` strictly),
so the index of the *first* occurrence of the maximum is returned. -/
noncomputable def argmaxGo : List ℝ → Nat → Nat → ℝ → Nat × ℝ
  | [], _, bi, bv => (bi, bv)
  | x :: xs, i, bi, bv =>
    if bv < x then argmaxGo xs (i + 1) i x else argmaxGo xs (i + 1) bi bv

/-- `np.argmax` over a similarity list, together with the maximum value
(`similarities[best]`); `none` on an empty list (numpy raises). -/
noncomputable def argmaxFirst : List ℝ → Option (Nat × ℝ)
  | [] => none
  | x :: xs => some (argmaxGo xs 1 0 x)

/-- The guess dictionary returned by `__call__`. -/
structure Guess where
  question : String
  guess : String
  confidence : ℝ

/-- `__call__(question)` from the source: embed the query, compute the cosine
similarity against every row of `_doc_vectors`, take `argmax` and return the
metadata of that row.  With no `_doc_vectors` (untrained) the attribute is
`None` and sklearn raises; with a 0-row matrix sklearn/`argmax` raise — the
spec names this failure `EmptyCorpusError`. -/
noncomputable def callGuesser (e : Engine) (question : String) :
    Except PyErr Guess :=
  match e.doc_vectors with
  | none => .error .attributeError
  | some M =>
    match embed e question with
    | .error er => .error er
    | .ok q =>
      let sims := M.map (fun row => cosSim q row)
      match argmaxFirst sims with
      | none => .error .emptyCorpus
      | some (best, s) =>
        .ok ⟨e.questions.getD best "", e.answers.getD best "", s⟩

/-- The three pickled artifacts written by `save()` plus the question/answer
metadata persisted by the `Guesser` base class.  Pickling itself (an external
persistence boundary, spec §6) is modelled as the identity on these values. -/
structure SavedModel where
  questions : List String
  answers : List String
  vocab : List (String × Nat)
  doc_vectors : Option (List (List ℝ))
  doc_counts : List (String × Nat)

/-- `save()` from the source: pickles `_vocab`, `_doc_vectors` and
`_doc_counts` (and the base class saves questions and answers).  Note that
no document-frequency table is saved. -/
def save (e : Engine) : SavedModel :=
  ⟨e.questions, e.answers, e.vocab, e.doc_vectors, e.doc_counts⟩

/-- Number of columns of a row-major matrix (`shape[1]`; a numpy array also
carries the column count when it has zero rows, so this is exact for every
nonempty matrix, which is the only case the development uses). -/
def matCols (M : List (List ℝ)) : Nat := (M.headD []).length

/-- A simple deterministic whitespace tokenizer, used as the pluggable
external tokenizer collaborator (spec §6) of the concrete engine instances
below (structurally recursive so that it evaluates). -/
def wsTokAux : List Char → List Char → List String
  | [], [] => []
  | [], acc => [String.mk acc.reverse]
  | c :: cs, acc =>
    if c = ' ' then
      (if acc.isEmpty then wsTokAux cs [] else String.mk acc.reverse :: wsTokAux cs [])
    else wsTokAux cs (c :: acc)

/-- Whitespace tokenization of a string. -/
def wsTok (s : String) : List String := wsTokAux s.data []

/-- A freshly constructed engine: `ToyTfIdfGuesser(max_vocab_size=10,
unk_cutoff=2)` with the whitespace tokenizer and the identity normalizer
(both legal external collaborators). -/
def engInit : Engine := initEngine 10 2 wsTok id

/-- `engInit` after `vocab_seen("a")` once. -/
def engSeen1 : Engine := { engInit with doc_counts := [("a", 1)] }

/-- `engInit` after `vocab_seen("a")` twice. -/
def engVocabCounted : Engine := { engInit with doc_counts := [("a", 2)] }

/-- `engVocabCounted` after `finalize_vocab()`: vocabulary `{"a": 0, "<UNK>": 1}`. -/
def engVocabFinal : Engine :=
  { engVocabCounted with
    vocab := [("a", 0), (kUNK, 1)]
    vocab_size := 2
    vocab_final := true }

/-- `engVocabFinal` after `scan_document("a")`. -/
def engScanned : Engine :=
  { engVocabFinal with doc_counts := [("a", 3)], total_docs := 1 }

/-- `engScanned` after `finalize_docs()`: the trained-state engine the real
training pipeline produces (note `doc_freq` is still `none`). -/
def engDocsFinal : Engine := { engScanned with docs_final := true }

/-- `load()` from the source, run on a freshly constructed engine `e`:
restores questions/answers, `_vocab` (setting `_vocab_size = len(_vocab)` and
`_vocab_final = True`), `_doc_vectors` and `_doc_counts`, sets
`_total_docs = _doc_vectors.shape[0]` and `_docs_final = True`, and asserts
`_vocab_size == _doc_vectors.shape[1]`.  The `_doc_freq` attribute is *not*
restored (nor does the fresh `__init__` create it). -/
def load (e : Engine) (m : SavedModel) : Except PyErr Engine :=
  match m.doc_vectors with
  | none => .error .attributeError
  | some M =>
    let e' := { e with
      questions := m.questions
      answers := m.answers
      vocab := m.vocab
      vocab_size := (m.vocab.length : Int)
      vocab_final := true
      doc_vectors := some M
      doc_counts := m.doc_counts
      total_docs := M.length
      docs_final := true }
    if (m.vocab.length : Int) = (matCols M : Int) then .ok e'
    else .error .invalidState

/-- The vocabulary-finalization algorithm exactly as claim C4 / spec §4.1
words it: sort observed tokens by descending count with stable first-seen
tie-break, keep at most `max_vocab_size - 1` among those with count ≥
`unk_cutoff`, assign ids 0..k-1 in sorted order, *append* the unknown token
as the final id, and fail with `CapacityError` unless the resulting size is
strictly below `max_vocab_size`.  Used only to compare against the source's
`finalize_vocab`. -/
def finalizeVocabSpec (e : Engine) : Except PyErr Engine :=
  let sorted := sortByCountDesc e.doc_counts
  let eligible := sorted.filter (fun a => decide (e.unk_cutoff ≤ a.2))
  let kept := eligible.take (e.max_vocab_size - 1)
  let vocab1 := kept.enum.map (fun p => (p.2.1, p.1))
  let vocab2 := vocab1 ++ [(kUNK, vocab1.length)]
  if vocab2.length < e.max_vocab_size then
    .ok { e with vocab := vocab2, vocab_size := (vocab2.length : Int),
                 vocab_final := true }
  else .error .capacity

/-- `engInit` after `vocab_seen("<UNK>", 2)`: the corpus contained the
literal token `"<UNK>"` (reachable with any tokenizer that emits it). -/
def engUnkCounted : Engine := { engInit with doc_counts := [(kUNK, 2)] }

/-- What `finalize_vocab` actually produces from `engUnkCounted`: the dict
assignment `self._vocab[kUNK] = len(self._vocab)` *overwrites* the entry of
the observed token `"<UNK>"` (id 0) with id 1, so the final vocabulary is
`{"<UNK>": 1}` of size 1 — id 1 is out of range `[0, 1)`. -/
def engUnkFinal : Engine :=
  { engUnkCounted with
    vocab := [(kUNK, 1)]
    vocab_size := 1
    vocab_final := true }

/-- The id that `vocab_lookup` computes when it does not raise: the token's
own id if the token is a vocabulary key, else the unknown token's id. -/
def vocab_id (e : Engine) (w : String) : Nat :=
  match alookup e.vocab w with
  | some i => i
  | none => (alookup e.vocab kUNK).getD 0

/-- Occurrences of the id `i` in a list of ids. -/
def countN (l : List Nat) (i : Nat) : Nat :=
  (l.filter (fun j => decide (j = i))).length

/-- The embedding vector exactly as claim C3 (spec §4.3) words it: map *each*
token of the document to its vocabulary id (out-of-vocabulary tokens
collapse to the unknown id), give each distinct id the term frequency
(occurrences of the id) / (total token occurrences), and set
`vector[id] = tf(id) * inverse_document_frequency(id)`, all other entries
zero.  Used only to compare against the source's `embed`. -/
noncomputable def embedClaimed (e : Engine) (text : String) : List ℝ :=
  let ids := (e.tokenizer text).map (fun w => vocab_id e w)
  let tab := e.doc_freq.getD []
  (List.range e.vocab.length).map (fun i =>
    if i ∈ ids then
      ((countN ids i : ℝ) / (ids.length : ℝ))
        * inv_df e.total_docs ((alookup tab i).getD 0)
    else 0)

/-- Modelled from the spec: a trained-state engine as spec §3/§4 describes
it — vocabulary `{"a": 0, "<UNK>": 1}` finalized, 10 documents scanned, and
a *present* document-frequency table `{0 ↦ 1}` (the spec's
Document-Frequency Table; in the source no code ever creates the
`_doc_freq` attribute this table models; the C2 analysis shows that). -/
def engC3 : Engine :=
  { engInit with
    vocab := [("a", 0), (kUNK, 1)]
    vocab_size := 2
    vocab_final := true
    docs_final := true
    total_docs := 10
    doc_freq := some [(0, 1)] }

/-- Modelled from the spec: a trained-state engine whose only training
document is `"b"`, so the token `"b"` occurs in the single document
(document frequency 1 of 1 total).  Its idf is `log10(1/2) < 0`, producing
a negative TF-IDF weight. -/
def engC6 : Engine :=
  { engInit with
    vocab := [("b", 0), (kUNK, 1)]
    vocab_size := 2
    vocab_final := true
    docs_final := true
    total_docs := 1
    doc_freq := some [(0, 1)]
    doc_vectors := some [[0, 0]]
    questions := ["d0"]
    answers := ["L"] }

/-- A trained-state engine with a two-row document matrix, used to exercise
the similarity search; the matrix rows are both the embedding of a document
with no in-vocabulary tokens (all-zero rows). -/
def engC8 : Engine :=
  { engC3 with
    doc_vectors := some [[0, 0], [0, 0]]
    questions := ["q0", "q1"]
    answers := ["A", "B"] }

/-- Modelled from the spec: a trained-state engine (one training document
`"d0"` labelled `"L"`, vocabulary `{"a": 0, "<UNK>": 1}`, document-frequency
table `{0 ↦ 1}` present) about to be saved. -/
def engC9 : Engine :=
  { engC3 with
    doc_counts := [("a", 2)]
    doc_vectors := some [[0, 0]]
    questions := ["d0"]
    answers := ["L"] }

/-- The engine produced by `load` on a fresh instance from `save engC9`:
questions/answers, vocabulary, document matrix and global counts are
restored, `_total_docs` is reset to the matrix row count, and — decisively —
`doc_freq` is `none` again (neither `save` nor `load` touches the
document-frequency state that `inv_docfreq` reads). -/
def engC9loaded : Engine :=
  { initEngine 10 2 wsTok id with
    questions := ["d0"]
    answers := ["L"]
    vocab := [("a", 0), (kUNK, 1)]
    vocab_size := 2
    vocab_final := true
    doc_vectors := some [[0, 0]]
    doc_counts := [("a", 2)]
    total_docs := 1
    docs_final := true }

/-! ## Theorems -/

/-- `alookup` misses keys that are not in the dict. -/
theorem alookup_eq_none_of_not_mem {κ ν : Type} [DecidableEq κ] :
    ∀ (d : List (κ × ν)) (k : κ), k ∉ d.map Prod.fst → alookup d k = none
  | [], _, _ => rfl
  | (a, b) :: rest, k, h => by
    simp only [List.map_cons, List.mem_cons, not_or] at h
    show (if a = k then some b else alookup rest k) = none
    rw [if_neg (fun h' => h.1 h'.symm), alookup_eq_none_of_not_mem rest k h.2]

/-- `alookup` of a key appended behind fresh keys finds the appended value. -/
theorem alookup_append_sentinel {κ ν : Type} [DecidableEq κ] :
    ∀ (K : List (κ × ν)) (k : κ) (v : ν), k ∉ K.map Prod.fst →
      alookup (K ++ [(k, v)]) k = some v
  | [], k, v, _ => by simp [alookup]
  | (a, b) :: rest, k, v, h => by
    simp only [List.map_cons, List.mem_cons, not_or] at h
    show (if a = k then some b else alookup (rest ++ [(k, v)]) k) = some v
    rw [if_neg (fun h' => h.1 h'.symm), alookup_append_sentinel rest k v h.2]

/-- A successful `alookup` exhibits a member pair. -/
theorem alookup_mem {κ ν : Type} [DecidableEq κ] :
    ∀ (d : List (κ × ν)) (k : κ) (v : ν), alookup d k = some v → (k, v) ∈ d
  | [], _, _, h => by simp [alookup] at h
  | (a, b) :: rest, k, v, h => by
    by_cases hak : a = k
    · subst hak
      have hb : b = v := by simpa [alookup] using h
      subst hb
      exact List.mem_cons_self _ _
    · have h' : alookup rest k = some v := by simpa [alookup, hak] using h
      exact List.mem_cons_of_mem _ (alookup_mem rest k v h')

/-- Python dict assignment with a fresh key appends the pair at the end. -/
theorem aset_fresh {κ ν : Type} [DecidableEq κ] :
    ∀ (d : List (κ × ν)) (k : κ) (v : ν), k ∉ d.map Prod.fst →
      aset d k v = d ++ [(k, v)]
  | [], _, _, _ => rfl
  | (a, b) :: rest, k, v, h => by
    simp only [List.map_cons, List.mem_cons, not_or] at h
    show (if a = k then (a, v) :: rest else (a, b) :: aset rest k v)
        = (a, b) :: rest ++ [(k, v)]
    rw [if_neg (fun h' => h.1 h'.symm), aset_fresh rest k v h.2]
    rfl

/-- The dict-comprehension fold of `finalize_vocab`: inserting pairwise-fresh
keys one after another just appends the corresponding pairs. -/
theorem foldl_aset_eq_append :
    ∀ (ps : List (Nat × (String × Nat))) (acc : List (String × Nat)),
      (ps.map (fun p => p.2.1)).Nodup →
      (∀ p ∈ ps, p.2.1 ∉ acc.map Prod.fst) →
      ps.foldl (fun d p => aset d p.2.1 p.1) acc
        = acc ++ ps.map (fun p => (p.2.1, p.1))
  | [], acc, _, _ => by simp
  | p :: ps, acc, hnodup, hfresh => by
    simp only [List.map_cons, List.nodup_cons] at hnodup
    have h1 : p.2.1 ∉ acc.map Prod.fst := hfresh p (List.mem_cons_self _ _)
    simp only [List.foldl_cons, aset_fresh acc p.2.1 p.1 h1]
    rw [foldl_aset_eq_append ps (acc ++ [(p.2.1, p.1)]) hnodup.2]
    · simp
    · intro q hq
      simp only [List.map_append, List.mem_append, List.map_cons,
        List.map_nil, List.mem_singleton, not_or]
      refine ⟨hfresh q (List.mem_cons_of_mem _ hq), ?_⟩
      intro hcontra
      exact hnodup.1 (hcontra ▸ List.mem_map_of_mem (fun p => p.2.1) hq)

/-- The second component of an `enumFrom` entry is a member of the list. -/
theorem snd_mem_of_mem_enumFrom {γ : Type} :
    ∀ {l : List γ} {n : Nat} {x : Nat × γ}, x ∈ l.enumFrom n → x.2 ∈ l
  | [], _, _, h => by simp at h
  | a :: as, n, x, h => by
    simp only [List.enumFrom_cons, List.mem_cons] at h
    rcases h with h | h
    · subst h
      exact List.mem_cons_self _ _
    · exact List.mem_cons_of_mem _ (snd_mem_of_mem_enumFrom h)

/-- The index of an `enumFrom` entry is below the starting index plus the
length. -/
theorem fst_lt_of_mem_enumFrom {γ : Type} :
    ∀ {l : List γ} {n : Nat} {x : Nat × γ}, x ∈ l.enumFrom n →
      x.1 < n + l.length
  | [], _, _, h => by simp at h
  | a :: as, n, x, h => by
    simp only [List.enumFrom_cons, List.mem_cons] at h
    rcases h with h | h
    · subst h
      simp only [List.length_cons]
      omega
    · have := fst_lt_of_mem_enumFrom h
      simp only [List.length_cons]
      omega

/-- Core structural fact behind `finalize_vocab`: on a list sorted by
descending count, slicing first and then filtering by the cutoff (with the
enumeration indices of the *slice*, as the source's dict comprehension does)
is the same as filtering first and then slicing — because every
above-cutoff entry precedes every below-cutoff entry. -/
theorem take_enumFrom_filter_sorted (c : Nat) :
    ∀ (l : List (String × Nat)),
      l.Pairwise (fun a b => b.2 ≤ a.2) →
      ∀ (n m : Nat),
        ((l.take m).enumFrom n).filter (fun p => decide (c ≤ p.2.2))
          = ((l.filter (fun a => decide (c ≤ a.2))).take m).enumFrom n
  | [], _, n, m => by simp
  | a :: xs, hsort, n, m => by
    have htail := (List.pairwise_cons.mp hsort).2
    have hhead := (List.pairwise_cons.mp hsort).1
    cases m with
    | zero => simp
    | succ m' =>
      by_cases hpass : c ≤ a.2
      · simp only [List.take_succ_cons, List.enumFrom_cons, List.filter_cons]
        rw [take_enumFrom_filter_sorted c xs htail (n + 1) m']
        simp [hpass]
      · have hfail : ∀ y ∈ xs, ¬(c ≤ y.2) := fun y hy hc =>
          hpass (le_trans hc (hhead y hy))

        have hleft : ((xs.take m').enumFrom (n + 1)).filter
            (fun p => decide (c ≤ p.2.2)) = [] := by
          rw [List.filter_eq_nil_iff]
          intro x hx
          simp only [decide_eq_true_eq]
          exact hfail x.2 (List.mem_of_mem_take (snd_mem_of_mem_enumFrom hx))
        have hright : xs.filter (fun a => decide (c ≤ a.2)) = [] := by
          rw [List.filter_eq_nil_iff]
          intro x hx
          simp only [decide_eq_true_eq]
          exact hfail x hx
        simp [List.filter_cons, hpass, hleft, hright]

/-- `sortByCountDesc` returns a list sorted by descending count. -/
theorem sortByCountDesc_sorted (l : List (String × Nat)) :
    (sortByCountDesc l).Pairwise (fun a b => b.2 ≤ a.2) := by
  have h := @List.sorted_mergeSort (String × Nat)
    (fun a b => decide (b.2 ≤ a.2))
    (fun a b c hab hbc => by
      simp only [decide_eq_true_eq] at *
      exact le_trans hbc hab)
    (fun a b => by
      simp only [Bool.or_eq_true, decide_eq_true_eq]
      exact le_total b.2 a.2)
    l
  exact h.imp (fun hab => by simpa using hab)

/-- `sortByCountDesc` permutes its input. -/
theorem sortByCountDesc_perm (l : List (String × Nat)) :
    List.Perm (sortByCountDesc l) l :=
  List.mergeSort_perm l _

/-- The kept portion of the sliced sorted list, with dict-comprehension
indices, equals the enum of filter-then-slice: combination of
`take_enumFrom_filter_sorted` with the fold/aset lemmas.  `l` is the sorted
count list, `c` the cutoff, `m` the slice bound. -/
theorem finalize_kept_core (l : List (String × Nat)) (c m : Nat)
    (hsort : l.Pairwise (fun a b => b.2 ≤ a.2))
    (hnodup : (l.map Prod.fst).Nodup) :
    (((l.take m).enum.filter (fun p => decide (c ≤ p.2.2))).foldl
        (fun d p => aset d p.2.1 p.1) [])
      = ((l.filter (fun a => decide (c ≤ a.2))).take m).enum.map
          (fun p => (p.2.1, p.1)) := by
  have hkept : ((l.take m).enum.filter (fun p => decide (c ≤ p.2.2)))
      = ((l.filter (fun a => decide (c ≤ a.2))).take m).enum :=
    take_enumFrom_filter_sorted c l hsort 0 m
  rw [hkept]
  set F := l.filter (fun a => decide (c ≤ a.2)) with hF
  have hsub : List.Sublist (F.take m) l :=
    (List.take_sublist _ _).trans (List.filter_sublist _)
  have hkeysnodup : ((F.take m).map Prod.fst).Nodup :=
    List.Nodup.sublist (hsub.map Prod.fst) hnodup
  have hkeys_eq : ((F.take m).enum.map (fun p => p.2.1))
      = (F.take m).map Prod.fst := by
    have h1 : ((F.take m).enum.map (fun p => p.2.1))
        = ((F.take m).enum.map Prod.snd).map Prod.fst := by
      rw [List.map_map]
      rfl
    rw [h1, List.enum_map_snd]
  rw [foldl_aset_eq_append _ [] (by rw [hkeys_eq]; exact hkeysnodup)
    (by intro p _hp; simp)]
  simp

/-- Keys of the id-assignment list built from an enum are the original keys. -/
theorem keys_of_swap_enum (ps : List (String × Nat)) :
    ((ps.enum.map (fun p => (p.2.1, p.1))).map Prod.fst) = ps.map Prod.fst := by
  rw [List.map_map]
  have h1 : (Prod.fst ∘ fun p : Nat × (String × Nat) => (p.2.1, p.1))
      = (fun p : Nat × (String × Nat) => p.2.1) := rfl
  rw [h1]
  have h2 : (ps.enum.map (fun p => p.2.1))
      = (ps.enum.map Prod.snd).map Prod.fst := by
    rw [List.map_map]
    rfl
  rw [h2, List.enum_map_snd]

/-- Claim C4, amended: provided the observed-count table has distinct keys
(automatic for a real `Counter`) and the literal unknown-token string
`"<UNK>"` was never observed, the source's `finalize_vocab` computes exactly
the algorithm of the claim: stable sort by descending count, keep at most
`max_vocab_size - 1` tokens among those with count ≥ `unk_cutoff`, ids
0..k-1 in sorted order, unknown token appended as the final id, and a
`CapacityError` exactly when the resulting size is not strictly less than
`max_vocab_size`.  (When `"<UNK>"` itself is observed the two differ, as the C4
counterexample below shows.) -/
theorem C4_finalize_vocab_refines_spec (e : Engine)
    (hnodup : (e.doc_counts.map Prod.fst).Nodup)
    (hunk : kUNK ∉ e.doc_counts.map Prod.fst) :
    finalize_vocab e = finalizeVocabSpec e := by
  have hperm := sortByCountDesc_perm e.doc_counts
  have hsort := sortByCountDesc_sorted e.doc_counts
  have hkeysperm : List.Perm ((sortByCountDesc e.doc_counts).map Prod.fst)
      (e.doc_counts.map Prod.fst) := hperm.map _
  have hnodup' : ((sortByCountDesc e.doc_counts).map Prod.fst).Nodup :=
    hkeysperm.nodup_iff.mpr hnodup
  have hunk' : kUNK ∉ (sortByCountDesc e.doc_counts).map Prod.fst :=
    fun h => hunk (hkeysperm.mem_iff.mp h)
  have hsubF : ∀ j, List.Sublist
      (((sortByCountDesc e.doc_counts).filter
        (fun a => decide (e.unk_cutoff ≤ a.2))).take j)
      (sortByCountDesc e.doc_counts) :=
    fun j => (List.take_sublist _ _).trans (List.filter_sublist _)
  have hunkF : kUNK ∉ (((((sortByCountDesc e.doc_counts).filter
      (fun a => decide (e.unk_cutoff ≤ a.2))).take
        e.max_vocab_size).enum.map (fun p => (p.2.1, p.1))).map Prod.fst) := by
    intro h
    rw [keys_of_swap_enum] at h
    exact hunk' (((hsubF e.max_vocab_size).map Prod.fst).mem h)
  simp only [finalize_vocab, finalizeVocabSpec]
  rw [finalize_kept_core (sortByCountDesc e.doc_counts) e.unk_cutoff
    e.max_vocab_size hsort hnodup']
  rw [aset_fresh _ _ _ hunkF]
  simp only [List.length_append, List.length_map, List.enum_length,
    List.length_take, List.length_cons, List.length_nil]
  generalize (sortByCountDesc e.doc_counts).filter
    (fun a => decide (e.unk_cutoff ≤ a.2)) = F
  by_cases hcond : min e.max_vocab_size F.length + 1 < e.max_vocab_size
  · have hcond' : min (e.max_vocab_size - 1) F.length + 1 < e.max_vocab_size := by
      omega
    rw [if_pos hcond, if_pos hcond']
    have hle1 : F.length ≤ e.max_vocab_size := by omega
    have hle2 : F.length ≤ e.max_vocab_size - 1 := by omega
    rw [List.take_of_length_le hle1, List.take_of_length_le hle2]
    have hmin1 : min e.max_vocab_size F.length = F.length := by omega
    have hmin2 : min (e.max_vocab_size - 1) F.length = F.length := by omega
    rw [hmin1, hmin2]
  · have hcond' : ¬(min (e.max_vocab_size - 1) F.length + 1
        < e.max_vocab_size) := by omega
    rw [if_neg hcond, if_neg hcond']

/-- Evaluation of `finalize_vocab` on the corpus that observed the literal
token `"<UNK>"` twice: the dict assignment overwrites the observed entry, so
the result is the size-1 vocabulary `{"<UNK>": 1}` with its only id out of
range. -/
theorem finalize_engUnkCounted :
    finalize_vocab engUnkCounted = .ok engUnkFinal := by
  have hms : sortByCountDesc engUnkCounted.doc_counts = [(kUNK, 2)] := by
    simp [sortByCountDesc, engUnkCounted, engInit, initEngine]
  simp only [finalize_vocab, hms]
  rfl

/-- Evaluation of the claim's algorithm on the same input: it *appends* the
unknown token, producing `[("<UNK>", 0), ("<UNK>", 1)]` of size 2. -/
theorem finalizeSpec_engUnkCounted :
    finalizeVocabSpec engUnkCounted
      = .ok { engUnkCounted with
              vocab := [(kUNK, 0), (kUNK, 1)]
              vocab_size := 2
              vocab_final := true } := by
  have hms : sortByCountDesc engUnkCounted.doc_counts = [(kUNK, 2)] := by
    simp [sortByCountDesc, engUnkCounted, engInit, initEngine]
  simp only [finalizeVocabSpec, hms]
  rfl

/-- Claim C4 counterexample: on the reachable observed-count table
`{"<UNK>": 2}` (the corpus contained the literal unknown-token string), the
source's `finalize_vocab` does not append the unknown token as a final id —
the dict assignment overwrites the existing entry, yielding a vocabulary of
size 1 whose only id is 1, whereas the algorithm stated by the claim yields
a vocabulary of size 2.  So the claim's description is not valid for every
input. -/
theorem C4_counterexample :
    finalize_vocab engUnkCounted ≠ finalizeVocabSpec engUnkCounted := by
  rw [finalize_engUnkCounted, finalizeSpec_engUnkCounted]
  intro h
  have h2 := congrArg (fun r => (match r with
    | Except.ok en => en.vocab
    | Except.error _ => ([] : List (String × Nat))).length) h
  simp [engUnkFinal, engUnkCounted] at h2

/-- Witness for `C4_finalize_vocab_refines_spec` at the concrete engine
whose observed counts are `{"a": 2}`. -/
theorem C4_witness :
    finalize_vocab engVocabCounted = finalizeVocabSpec engVocabCounted :=
  C4_finalize_vocab_refines_spec engVocabCounted (by decide) (by decide)

/-- Claim C5 counterexample: vocabulary lookup is not total after every
finalization.  The state is reachable: observe the literal token `"<UNK>"`
twice, finalize with `max_vocab_size = 10`, `unk_cutoff = 2`.  The dict
assignment in `finalize_vocab` reassigns the unknown token the id 1 while
`_vocab_size = 1`, so *every* lookup — here `"x"` and the unknown token
itself — trips the range assert and raises instead of returning an id. -/
theorem C5_counterexample :
    vocab_seen engInit kUNK 2 = .ok engUnkCounted
    ∧ finalize_vocab engUnkCounted = .ok engUnkFinal
    ∧ vocab_lookup engUnkFinal "x" = .error .outOfRange
    ∧ vocab_lookup engUnkFinal kUNK = .error .outOfRange :=
  ⟨rfl, finalize_engUnkCounted, rfl, rfl⟩

/-- Claim C5, amended: for every vocabulary produced by a successful
`finalize_vocab` from an observed-count table with distinct keys that does
not contain the literal unknown-token string, `vocab_lookup` is total — for
every input token it returns an id (the token's own id if present, else the
unknown id) that is strictly below `_vocab_size`, and never fails. -/
theorem C5_vocab_lookup_total (e e' : Engine)
    (hnodup : (e.doc_counts.map Prod.fst).Nodup)
    (hunk : kUNK ∉ e.doc_counts.map Prod.fst)
    (hfin : finalize_vocab e = .ok e') (w : String) :
    ∃ i, vocab_lookup e' w = .ok i ∧ (i : Int) < e'.vocab_size := by
  have hperm := sortByCountDesc_perm e.doc_counts
  have hsort := sortByCountDesc_sorted e.doc_counts
  have hkeysperm : List.Perm ((sortByCountDesc e.doc_counts).map Prod.fst)
      (e.doc_counts.map Prod.fst) := hperm.map _
  have hnodup' : ((sortByCountDesc e.doc_counts).map Prod.fst).Nodup :=
    hkeysperm.nodup_iff.mpr hnodup
  have hunk' : kUNK ∉ (sortByCountDesc e.doc_counts).map Prod.fst :=
    fun h => hunk (hkeysperm.mem_iff.mp h)
  have hsubF : List.Sublist
      (((sortByCountDesc e.doc_counts).filter
        (fun a => decide (e.unk_cutoff ≤ a.2))).take e.max_vocab_size)
      (sortByCountDesc e.doc_counts) :=
    (List.take_sublist _ _).trans (List.filter_sublist _)
  have hunkF : kUNK ∉ (((((sortByCountDesc e.doc_counts).filter
      (fun a => decide (e.unk_cutoff ≤ a.2))).take
        e.max_vocab_size).enum.map (fun p => (p.2.1, p.1))).map Prod.fst) := by
    intro h
    rw [keys_of_swap_enum] at h
    exact hunk' ((hsubF.map Prod.fst).mem h)
  simp only [finalize_vocab] at hfin
  rw [finalize_kept_core (sortByCountDesc e.doc_counts) e.unk_cutoff
    e.max_vocab_size hsort hnodup'] at hfin
  rw [aset_fresh _ _ _ hunkF] at hfin
  set K := ((((sortByCountDesc e.doc_counts).filter
      (fun a => decide (e.unk_cutoff ≤ a.2))).take
        e.max_vocab_size).enum.map (fun p => (p.2.1, p.1))) with hKdef
  have hKbound : ∀ (u : String) (i : Nat), (u, i) ∈ K → i < K.length := by
    intro u i hmem
    rcases List.mem_map.mp hmem with ⟨p, hp, hpe⟩
    have hpi : p.1 = i := by
      have := congrArg Prod.snd hpe
      simpa using this
    rw [List.enum_eq_enumFrom] at hp
    have hlt := fst_lt_of_mem_enumFrom hp
    rw [hKdef]
    simp only [List.length_map, List.enum_length]
    omega
  split at hfin
  · cases hfin
    by_cases hw : ∃ i, alookup (K ++ [(kUNK, K.length)]) w = some i
    · rcases hw with ⟨i, hi⟩
      refine ⟨i, ?_, ?_⟩
      · simp only [vocab_lookup, hi]
        rw [if_neg (by simp)]
        rw [if_pos ?_]
        have hmem := alookup_mem _ _ _ hi
        rcases List.mem_append.mp hmem with hK | hlast
        · have := hKbound w i hK
          simp only [List.length_append, List.length_cons, List.length_nil]
          exact_mod_cast by omega
        · have : i = K.length := by
            simp only [List.mem_singleton, Prod.mk.injEq] at hlast
            exact hlast.2
          subst this
          simp only [List.length_append, List.length_cons, List.length_nil]
          exact_mod_cast by omega
      · have hmem := alookup_mem _ _ _ hi
        rcases List.mem_append.mp hmem with hK | hlast
        · have := hKbound w i hK
          simp only [List.length_append, List.length_cons, List.length_nil]
          exact_mod_cast by omega
        · have : i = K.length := by
            simp only [List.mem_singleton, Prod.mk.injEq] at hlast
            exact hlast.2
          subst this
          simp only [List.length_append, List.length_cons, List.length_nil]
          exact_mod_cast by omega
    · push_neg at hw
      have hnone : alookup (K ++ [(kUNK, K.length)]) w = none := by
        cases h : alookup (K ++ [(kUNK, K.length)]) w with
        | none => rfl
        | some i => exact absurd h (hw i)
      refine ⟨K.length, ?_, ?_⟩
      · simp only [vocab_lookup, hnone, alookup_append_sentinel K kUNK K.length hunkF]
        rw [if_neg (by simp)]
        rw [if_pos ?_]
        simp only [List.length_append, List.length_cons, List.length_nil]
        exact_mod_cast by omega
      · simp only [List.length_append, List.length_cons, List.length_nil]
        exact_mod_cast by omega
  · exact absurd hfin (by simp)

/-- Witness for `C5_vocab_lookup_total`: looking up the unseen token
`"zzz"` in the finalized vocabulary `{"a": 0, "<UNK>": 1}` yields an
in-range id. -/
theorem C5_witness :
    ∃ i, vocab_lookup engVocabFinal "zzz" = .ok i
      ∧ (i : Int) < engVocabFinal.vocab_size := by
  have h := C5_vocab_lookup_total engVocabCounted engVocabFinal
    (by decide) (by decide) ?_ "zzz"
  · exact h
  · have hms : sortByCountDesc engVocabCounted.doc_counts = [("a", 2)] := by
      simp [sortByCountDesc, engVocabCounted, engInit, initEngine]
    simp only [finalize_vocab, hms]
    rfl

/-- Membership in `dedupFirst` is membership in the original list. -/
theorem mem_dedupFirst (l : List String) (w : String) :
    w ∈ dedupFirst l ↔ w ∈ l := by
  induction l using dedupFirst.induct with
  | case1 => simp [dedupFirst]
  | case2 x xs ih =>
    rw [dedupFirst]
    by_cases hwx : w = x
    · subst hwx
      simp
    · simp only [List.mem_cons, hwx, false_or]
      rw [ih]
      simp [List.mem_filter, hwx]

/-- `dedupFirst` produces a duplicate-free list. -/
theorem nodup_dedupFirst (l : List String) : (dedupFirst l).Nodup := by
  induction l using dedupFirst.induct with
  | case1 => simp [dedupFirst]
  | case2 x xs ih =>
    rw [dedupFirst]
    refine List.nodup_cons.mpr ⟨?_, ih⟩
    intro hmem
    rw [mem_dedupFirst] at hmem
    simp [List.mem_filter] at hmem

/-- `getD` after `set` at the written index. -/
theorem getD_set_self : ∀ (v : List ℝ) (i : Nat) (a : ℝ), i < v.length →
    ((v.set i a).getD i 0) = a
  | [], i, a, h => absurd h (by simp)
  | x :: xs, 0, a, _ => rfl
  | x :: xs, i + 1, a, h => getD_set_self xs i a (by simpa using h)

/-- `getD` after `set` at a different index. -/
theorem getD_set_ne : ∀ (v : List ℝ) (i j : Nat) (a : ℝ), i ≠ j →
    ((v.set j a).getD i 0) = v.getD i 0
  | [], _, _, _, _ => by simp
  | x :: xs, 0, 0, a, hne => absurd rfl hne
  | x :: xs, i + 1, 0, a, _ => rfl
  | x :: xs, 0, j + 1, a, _ => rfl
  | x :: xs, i + 1, j + 1, a, hne =>
    getD_set_ne xs i j a (fun h => hne (by omega))

/-- Every entry of a zero vector reads as zero. -/
theorem getD_replicate_zero : ∀ (n i : Nat),
    ((List.replicate n (0 : ℝ)).getD i 0) = 0
  | 0, _ => rfl
  | _ + 1, 0 => rfl
  | n + 1, i + 1 => getD_replicate_zero n i

/-- If the id column of a dict is duplicate-free, two pairs sharing an id
share their key. -/
theorem ids_nodup_inj :
    ∀ (d : List (String × Nat)), (d.map Prod.snd).Nodup →
      ∀ (x y : String) (i : Nat), (x, i) ∈ d → (y, i) ∈ d → x = y
  | [], _, x, y, i, hx, _ => absurd hx (by simp)
  | (a, b) :: rest, hnodup, x, y, i, hx, hy => by
    simp only [List.map_cons, List.nodup_cons] at hnodup
    rcases List.mem_cons.mp hx with hx1 | hx2 <;>
      rcases List.mem_cons.mp hy with hy1 | hy2
    · rw [(Prod.mk.injEq _ _ _ _).mp hx1 |>.1,
        (Prod.mk.injEq _ _ _ _).mp hy1 |>.1]
    · exfalso
      have hbi : b = i := ((Prod.mk.injEq _ _ _ _).mp hx1).2.symm
      exact hnodup.1 (hbi ▸ (List.mem_map_of_mem Prod.snd hy2 : i ∈ _))
    · exfalso
      have hbi : b = i := ((Prod.mk.injEq _ _ _ _).mp hy1).2.symm
      exact hnodup.1 (hbi ▸ (List.mem_map_of_mem Prod.snd hx2 : i ∈ _))
    · exact ids_nodup_inj rest hnodup.2 x y i hx2 hy2

/-- `vocab_lookup` succeeds on any key of a well-formed finalized
vocabulary (every id below `_vocab_size`). -/
theorem vocab_lookup_ok_of_some (e : Engine) (hfin : e.vocab_final = true)
    (hsize : e.vocab_size = (e.vocab.length : Int))
    (hrange : ∀ p ∈ e.vocab, p.2 < e.vocab.length)
    (w : String) (i : Nat) (hw : alookup e.vocab w = some i) :
    vocab_lookup e w = .ok i := by
  have hi : i < e.vocab.length := hrange _ (alookup_mem _ _ _ hw)
  simp only [vocab_lookup, hfin, Bool.not_true, Bool.false_eq_true, if_false,
    hw, hsize]
  rw [if_pos (by exact_mod_cast hi)]

/-- `vocab_lookup` falls back to the unknown id on any non-key, and succeeds
when the vocabulary is well-formed. -/
theorem vocab_lookup_ok_of_none (e : Engine) (hfin : e.vocab_final = true)
    (hsize : e.vocab_size = (e.vocab.length : Int))
    (hrange : ∀ p ∈ e.vocab, p.2 < e.vocab.length)
    (w : String) (hw : alookup e.vocab w = none)
    (u : Nat) (hu : alookup e.vocab kUNK = some u) :
    vocab_lookup e w = .ok u := by
  have hui : u < e.vocab.length := hrange _ (alookup_mem _ _ _ hu)
  simp only [vocab_lookup, hfin, Bool.not_true, Bool.false_eq_true, if_false,
    hw, hu, hsize]
  rw [if_pos (by exact_mod_cast hui)]

/-- On a well-formed finalized vocabulary, `vocab_lookup` never raises and
returns `vocab_id`. -/
theorem vocab_lookup_eq_vocab_id (e : Engine) (hfin : e.vocab_final = true)
    (hsize : e.vocab_size = (e.vocab.length : Int))
    (hrange : ∀ p ∈ e.vocab, p.2 < e.vocab.length)
    (hu : ∃ u, alookup e.vocab kUNK = some u) (w : String) :
    vocab_lookup e w = .ok (vocab_id e w) := by
  obtain ⟨u, hu⟩ := hu
  cases hw : alookup e.vocab w with
  | some i =>
    rw [vocab_lookup_ok_of_some e hfin hsize hrange w i hw]
    simp [vocab_id, hw]
  | none =>
    rw [vocab_lookup_ok_of_none e hfin hsize hrange w hw u hu]
    simp [vocab_id, hw, hu]

/-- Behaviour of the write loop of `embed` on a well-formed engine whose
document-frequency table attribute is present: it succeeds, keeps the vector
length, writes `count/total · idf` at the id of every processed word, and
leaves every other entry unchanged. -/
theorem embedLoop_spec (e : Engine) (tab : List (Nat × Nat))
    (hfin : e.vocab_final = true) (hdocs : e.docs_final = true)
    (htab : e.doc_freq = some tab)
    (hsize : e.vocab_size = (e.vocab.length : Int))
    (hrange : ∀ p ∈ e.vocab, p.2 < e.vocab.length)
    (hids : (e.vocab.map Prod.snd).Nodup) (toks : List String) :
    ∀ (ws : List String) (v : List ℝ),
      ws.Nodup →
      (∀ w ∈ ws, (alookup e.vocab w).isSome) →
      v.length = e.vocab.length →
      ∃ v', embedLoop e toks ws v = .ok v'
        ∧ v'.length = v.length
        ∧ (∀ (w : String) (i : Nat), w ∈ ws → alookup e.vocab w = some i →
            v'.getD i 0 = ((countA toks w : ℝ) / (toks.length : ℝ))
              * inv_df e.total_docs ((alookup tab i).getD 0))
        ∧ (∀ i : Nat, (∀ w ∈ ws, alookup e.vocab w ≠ some i) →
            v'.getD i 0 = v.getD i 0)
  | [], v, _, _, _ => ⟨v, rfl, rfl, by simp, fun _ _ => rfl⟩
  | w :: ws, v, hnodup, hsome, hv => by
    obtain ⟨i₀, hi₀⟩ : ∃ i, alookup e.vocab w = some i := by
      have hs := hsome w (List.mem_cons_self _ _)
      cases h : alookup e.vocab w with
      | none => rw [h] at hs; simp at hs
      | some j => exact ⟨j, rfl⟩
    have hlk := vocab_lookup_ok_of_some e hfin hsize hrange w i₀ hi₀
    have hidf : inv_docfreq e i₀
        = .ok (inv_df e.total_docs ((alookup tab i₀).getD 0)) := by
      simp [inv_docfreq, hdocs, htab]
    have hi₀lt : i₀ < v.length := hv ▸ hrange _ (alookup_mem _ _ _ hi₀)
    have hrec := embedLoop_spec e tab hfin hdocs htab hsize hrange hids toks ws
      (v.set i₀ (((countA toks w : ℝ) / (toks.length : ℝ))
        * inv_df e.total_docs ((alookup tab i₀).getD 0)))
      (List.nodup_cons.mp hnodup).2
      (fun x hx => hsome x (List.mem_cons_of_mem _ hx))
      (by simpa using hv)
    obtain ⟨v', hv', hlen, hset, hkeep⟩ := hrec
    refine ⟨v', ?_, ?_, ?_, ?_⟩
    · simp only [embedLoop, hlk, hidf, hv']
    · rw [hlen]
      simp
    · intro w' i hw' hlki
      rcases List.mem_cons.mp hw' with hww | hw'mem
      · subst hww
        have hii : i = i₀ := by
          rw [hlki] at hi₀
          exact (Option.some.injEq _ _).mp hi₀
        subst hii
        have hnone : ∀ x ∈ ws, alookup e.vocab x ≠ some i := by
          intro x hx hcontra
          have hxw : x ≠ w' :=
            fun h => (List.nodup_cons.mp hnodup).1 (h ▸ hx)
          exact hxw (ids_nodup_inj e.vocab hids x w' i
            (alookup_mem _ _ _ hcontra) (alookup_mem _ _ _ hlki))
        rw [hkeep i hnone, getD_set_self v i _ hi₀lt]
      · exact hset w' i hw'mem hlki
    · intro i hni
      have hni' : ∀ x ∈ ws, alookup e.vocab x ≠ some i :=
        fun x hx => hni x (List.mem_cons_of_mem _ hx)
      have hi0ne : i ≠ i₀ :=
        fun h => hni w (List.mem_cons_self _ _) (h ▸ hi₀)
      rw [hkeep i hni', getD_set_ne v i i₀ _ hi0ne]

/-- Full characterization of `embed` on a well-formed engine with a present
document-frequency table: it never fails, the vector has length
`len(_vocab)` (= `_vocab_size`), the entry at the id of each distinct
*in-vocabulary* token `w` of the document is
`(count of w) / (number of in-vocabulary token occurrences) · inv_df`, and
every other entry is zero.  Out-of-vocabulary tokens are filtered out
entirely: they contribute neither an unknown-id entry nor to the
denominator. -/
theorem embed_spec (e : Engine) (tab : List (Nat × Nat))
    (hfin : e.vocab_final = true) (hdocs : e.docs_final = true)
    (htab : e.doc_freq = some tab)
    (hsize : e.vocab_size = (e.vocab.length : Int))
    (hrange : ∀ p ∈ e.vocab, p.2 < e.vocab.length)
    (hids : (e.vocab.map Prod.snd).Nodup) (text : String) :
    ∃ v, embed e text = .ok v
      ∧ v.length = e.vocab.length
      ∧ (∀ (w : String) (i : Nat), alookup e.vocab w = some i →
          w ∈ (e.tokenizer text).filter (fun x => (alookup e.vocab x).isSome) →
          v.getD i 0 = ((countA ((e.tokenizer text).filter
              (fun x => (alookup e.vocab x).isSome)) w : ℝ)
            / (((e.tokenizer text).filter
              (fun x => (alookup e.vocab x).isSome)).length : ℝ))
            * inv_df e.total_docs ((alookup tab i).getD 0))
      ∧ (∀ i : Nat, (∀ w, alookup e.vocab w = some i →
            w ∉ (e.tokenizer text).filter (fun x => (alookup e.vocab x).isSome)) →
          v.getD i 0 = 0) := by
  have hzeros : npZeros e.vocab_size
      = .ok (List.replicate e.vocab.length 0) := by
    rw [hsize]
    simp only [npZeros]
    rw [if_neg (by omega)]
    simp
  obtain ⟨v, hvloop, hlen, hset, hkeep⟩ :=
    embedLoop_spec e tab hfin hdocs htab hsize hrange hids
      ((e.tokenizer text).filter (fun x => (alookup e.vocab x).isSome))
      (dedupFirst ((e.tokenizer text).filter
        (fun x => (alookup e.vocab x).isSome)))
      (List.replicate e.vocab.length 0)
      (nodup_dedupFirst _)
      (fun w hw =>
        (List.mem_filter.mp ((mem_dedupFirst _ _).mp hw)).2)
      (by simp)
  refine ⟨v, ?_, by simpa using hlen, ?_, ?_⟩
  · simp only [embed, hzeros]
    exact hvloop
  · intro w i hlki hmem
    exact hset w i ((mem_dedupFirst _ _).mpr hmem) hlki
  · intro i hni
    rw [hkeep i ?_, getD_replicate_zero]
    intro w hw hcontra
    exact hni w hcontra ((mem_dedupFirst _ _).mp hw)

/-- Claim C3 counterexample: on the trained-state engine `engC3`
(vocabulary `{"a": 0, "<UNK>": 1}`, 10 documents, document frequency of id 0
equal to 1) and the document `"a b"`, the source's `embed` does not return
the vector described by the claim.  The claim's vector maps the
out-of-vocabulary token `"b"` to the unknown id and divides by the total
token count 2, giving entry `½·idf(0)` at id 0; the code filters `"b"` out
and divides by the in-vocabulary count 1, giving entry `1·idf(0)` — and
`idf(0) = log10 5 ≠ 0`. -/
theorem C3_counterexample :
    embed engC3 "a b" ≠ .ok (embedClaimed engC3 "a b") := by
  intro h
  obtain ⟨v, hv, _, hset, _⟩ := embed_spec engC3 [(0, 1)] rfl rfl rfl rfl
    (by decide) (by decide) "a b"
  rw [hv] at h
  have hveq : v = embedClaimed engC3 "a b" := by
    injection h
  have h0 := hset "a" 0 rfl (by decide)
  rw [hveq] at h0
  have htoks : (engC3.tokenizer "a b").filter
      (fun x => (alookup engC3.vocab x).isSome) = ["a"] := rfl
  rw [htoks] at h0
  have hca : countA ["a"] "a" = 1 := rfl
  rw [hca] at h0
  have htd : inv_df engC3.total_docs ((alookup [(0, 1)] 0).getD 0)
      = inv_df 10 1 := rfl
  rw [htd] at h0
  norm_num at h0
  have hc : (embedClaimed engC3 "a b").getD 0 0
      = (((1 : Nat) : ℝ) / ((2 : Nat) : ℝ)) * inv_df 10 1 := rfl
  norm_num at hc
  rw [hc] at h0
  have hpos : 0 < inv_df 10 1 := by
    have h1 : inv_df 10 1 = Real.log 5 / Real.log 10 := by
      simp only [inv_df, log10]
      norm_num
    rw [h1]
    exact div_pos (Real.log_pos (by norm_num)) (Real.log_pos (by norm_num))
  linarith

/-- Claim C3, amended: on a trained engine (finalized vocabulary with
in-range, duplicate-free ids, finalized documents, and a present
document-frequency table), `embed` returns a vector of length
`_vocab_size`, but out-of-vocabulary tokens are *dropped*, not mapped to
the unknown id: the term frequency of each distinct in-vocabulary token is
(its occurrences) / (number of *in-vocabulary* token occurrences), the
entry at that token's id is `term_frequency · inverse_document_frequency`,
and every other entry (including the unknown id when no literal unknown
token occurs) is zero. -/
theorem C3_embed_characterization (e : Engine) (tab : List (Nat × Nat))
    (hfin : e.vocab_final = true) (hdocs : e.docs_final = true)
    (htab : e.doc_freq = some tab)
    (hsize : e.vocab_size = (e.vocab.length : Int))
    (hrange : ∀ p ∈ e.vocab, p.2 < e.vocab.length)
    (hids : (e.vocab.map Prod.snd).Nodup) (text : String) :
    ∃ v, embed e text = .ok v
      ∧ v.length = e.vocab.length
      ∧ (∀ (w : String) (i : Nat), alookup e.vocab w = some i →
          w ∈ (e.tokenizer text).filter (fun x => (alookup e.vocab x).isSome) →
          v.getD i 0 = ((countA ((e.tokenizer text).filter
              (fun x => (alookup e.vocab x).isSome)) w : ℝ)
            / (((e.tokenizer text).filter
              (fun x => (alookup e.vocab x).isSome)).length : ℝ))
            * inv_df e.total_docs ((alookup tab i).getD 0))
      ∧ (∀ i : Nat, (∀ w, alookup e.vocab w = some i →
            w ∉ (e.tokenizer text).filter (fun x => (alookup e.vocab x).isSome)) →
          v.getD i 0 = 0) :=
  embed_spec e tab hfin hdocs htab hsize hrange hids text

/-- Witness for `C3_embed_characterization` at the trained-state engine
`engC3` and the document `"a b"`. -/
theorem C3_witness :
    ∃ v, embed engC3 "a b" = .ok v
      ∧ v.length = engC3.vocab.length
      ∧ (∀ (w : String) (i : Nat), alookup engC3.vocab w = some i →
          w ∈ (engC3.tokenizer "a b").filter
            (fun x => (alookup engC3.vocab x).isSome) →
          v.getD i 0 = ((countA ((engC3.tokenizer "a b").filter
              (fun x => (alookup engC3.vocab x).isSome)) w : ℝ)
            / (((engC3.tokenizer "a b").filter
              (fun x => (alookup engC3.vocab x).isSome)).length : ℝ))
            * inv_df engC3.total_docs ((alookup [(0, 1)] i).getD 0))
      ∧ (∀ i : Nat, (∀ w, alookup engC3.vocab w = some i →
            w ∉ (engC3.tokenizer "a b").filter
              (fun x => (alookup engC3.vocab x).isSome)) →
          v.getD i 0 = 0) :=
  C3_embed_characterization engC3 [(0, 1)] rfl rfl rfl rfl
    (by decide) (by decide) "a b"

/-- Before vocabulary finalization the tokenize generator yields the
normalized string of every raw token. -/
theorem tokenizeLoop_not_final (e : Engine) (h : e.vocab_final = false) :
    ∀ ts : List String,
      tokenizeLoop e ts = .ok (ts.map (fun t => Sum.inl (e.normalizer t)))
  | [] => rfl
  | t :: ts => by
    simp only [tokenizeLoop, h, Bool.false_eq_true, if_false,
      tokenizeLoop_not_final e h ts]
    rfl

/-- After finalization of a well-formed vocabulary the tokenize generator
yields the vocabulary id of every normalized token. -/
theorem tokenizeLoop_final (e : Engine) (hfin : e.vocab_final = true)
    (hsize : e.vocab_size = (e.vocab.length : Int))
    (hrange : ∀ p ∈ e.vocab, p.2 < e.vocab.length)
    (hu : ∃ u, alookup e.vocab kUNK = some u) :
    ∀ ts : List String,
      tokenizeLoop e ts
        = .ok (ts.map (fun t => Sum.inr (vocab_id e (e.normalizer t))))
  | [] => rfl
  | t :: ts => by
    simp only [tokenizeLoop, hfin, if_true,
      vocab_lookup_eq_vocab_id e hfin hsize hrange hu (e.normalizer t),
      tokenizeLoop_final e hfin hsize hrange hu ts]
    rfl

/-- Whatever state the engine is in, whenever the tokenize loop returns a
list at all it yields exactly one item per raw token (each step either
raises or conses exactly one item). -/
theorem tokenizeLoop_length (e : Engine) :
    ∀ (ts : List String) (l : List (String ⊕ Nat)),
      tokenizeLoop e ts = .ok l → l.length = ts.length
  | [], l, h => by
    injection h with h'
    rw [← h']
    rfl
  | t :: ts, l, h => by
    by_cases hfin : e.vocab_final = true
    · simp only [tokenizeLoop, hfin, if_true] at h
      cases hlk : vocab_lookup e (e.normalizer t) with
      | error er =>
        rw [hlk] at h
        simp at h
      | ok i =>
        rw [hlk] at h
        cases hrest : tokenizeLoop e ts with
        | error er =>
          rw [hrest] at h
          simp at h
        | ok rest =>
          rw [hrest] at h
          injection h with h'
          rw [← h', List.length_cons, List.length_cons,
            tokenizeLoop_length e ts rest hrest]
    · simp only [tokenizeLoop, hfin] at h
      cases hrest : tokenizeLoop e ts with
      | error er =>
        rw [hrest] at h
        simp at h
      | ok rest =>
        rw [hrest] at h
        injection h with h'
        rw [← h', List.length_cons, List.length_cons,
          tokenizeLoop_length e ts rest hrest]

/-- Claim C10 counterexample: after a finalization, `tokenize` does not
always yield vocabulary ids.  The state is reachable: observe the literal
token `"<UNK>"` twice and finalize (`unk_cutoff = 2`,
`max_vocab_size = 10`); the resulting vocabulary is `{"<UNK>": 1}` with
`_vocab_size = 1`, so the `vocab_lookup` each yield performs trips its
range assert, and `tokenize` raises on its very first token instead of
yielding an id. -/
theorem C10_counterexample :
    finalize_vocab engUnkCounted = .ok engUnkFinal
    ∧ engUnkFinal.vocab_final = true
    ∧ tokenize engUnkFinal "x" = .error .outOfRange :=
  ⟨finalize_engUnkCounted, rfl, rfl⟩

/-- Claim C10, amended: `tokenize`'s output type depends on engine state.
Before vocabulary finalization it yields, unconditionally, the normalized
string form of each raw token.  After finalization it yields integer
vocabulary ids (out-of-vocabulary normalized tokens collapsing to the
unknown id, `vocab_id`) *provided* the finalized vocabulary is well-formed
— every id below `_vocab_size` and an unknown entry present — which
`finalize_vocab` guarantees unless the literal token `"<UNK>"` was itself
observed and kept (then every yield raises instead, as the C10
counterexample above shows).  Whenever `tokenize` returns a list at all,
in either state, well-formed or not, its length equals the number of raw
tokens. -/
theorem C10_tokenize_state_dependent (e : Engine) (sent : String) :
    (e.vocab_final = false →
      tokenize e sent
        = .ok ((e.tokenizer sent).map (fun t => Sum.inl (e.normalizer t))))
    ∧ (e.vocab_final = true →
      e.vocab_size = (e.vocab.length : Int) →
      (∀ p ∈ e.vocab, p.2 < e.vocab.length) →
      (∃ u, alookup e.vocab kUNK = some u) →
      tokenize e sent
        = .ok ((e.tokenizer sent).map
            (fun t => Sum.inr (vocab_id e (e.normalizer t)))))
    ∧ (∀ l, tokenize e sent = .ok l →
        l.length = (e.tokenizer sent).length) :=
  ⟨fun h => tokenizeLoop_not_final e h _,
   fun h hsize hrange hu => tokenizeLoop_final e h hsize hrange hu _,
   fun l hl => tokenizeLoop_length e _ l hl⟩

/-- Witness for `C10_tokenize_state_dependent`, discharging both halves at
concrete reachable engines: the fresh engine `engInit` (not finalized,
`_vocab_size = -1`) yields normalized strings, and the finalized engine
`engVocabFinal` yields ids. -/
theorem C10_witness :
    tokenize engInit "b a"
      = .ok ((engInit.tokenizer "b a").map
          (fun t => Sum.inl (engInit.normalizer t)))
    ∧ tokenize engVocabFinal "b a"
      = .ok ((engVocabFinal.tokenizer "b a").map
          (fun t => Sum.inr (vocab_id engVocabFinal
            (engVocabFinal.normalizer t)))) :=
  ⟨(C10_tokenize_state_dependent engInit "b a").1 rfl,
   (C10_tokenize_state_dependent engVocabFinal "b a").2.1 rfl rfl
     (by decide) ⟨1, rfl⟩⟩

/-- Invariant of the `np.argmax` fold: the result dominates the accumulator
and every scanned element, and is either the unchanged accumulator or a
strictly-greater element at an absolute index `k + j` that strictly
dominates everything scanned before it. -/
theorem argmaxGo_spec :
    ∀ (xs : List ℝ) (k bi : Nat) (bv : ℝ),
      bv ≤ (argmaxGo xs k bi bv).2
      ∧ (∀ j, j < xs.length → xs.getD j 0 ≤ (argmaxGo xs k bi bv).2)
      ∧ (argmaxGo xs k bi bv = (bi, bv)
        ∨ ∃ j, j < xs.length ∧ (argmaxGo xs k bi bv).1 = k + j
            ∧ (argmaxGo xs k bi bv).2 = xs.getD j 0
            ∧ bv < (argmaxGo xs k bi bv).2
            ∧ ∀ j', j' < j → xs.getD j' 0 < (argmaxGo xs k bi bv).2)
  | [], k, bi, bv => by
    refine ⟨le_refl _, ?_, Or.inl rfl⟩
    intro j hj
    simp at hj
  | x :: xs, k, bi, bv => by
    by_cases hlt : bv < x
    · have ih := argmaxGo_spec xs (k + 1) k x
      obtain ⟨ih1, ih2, ih3⟩ := ih
      have hred : argmaxGo (x :: xs) k bi bv = argmaxGo xs (k + 1) k x := by
        simp only [argmaxGo, if_pos hlt]
      rw [hred]
      refine ⟨le_of_lt (lt_of_lt_of_le hlt ih1), ?_, ?_⟩
      · intro j hj
        cases j with
        | zero => exact ih1
        | succ j' => exact ih2 j' (by simpa using hj)
      · rcases ih3 with heq | ⟨j₂, hj₂, hidx, hval, hgt, hstrict⟩
        · refine Or.inr ⟨0, by simp, ?_, ?_, ?_, ?_⟩
          · rw [heq]
            simp
          · rw [heq]
            rfl
          · rw [heq]
            exact hlt
          · intro j' hj'
            exact absurd hj' (Nat.not_lt_zero j')
        · refine Or.inr ⟨j₂ + 1, by simpa using hj₂, by omega, hval,
            lt_trans hlt hgt, ?_⟩
          intro j' hj'
          cases j' with
          | zero => exact hgt
          | succ j'' => exact hstrict j'' (by omega)
    · have ih := argmaxGo_spec xs (k + 1) bi bv
      obtain ⟨ih1, ih2, ih3⟩ := ih
      have hred : argmaxGo (x :: xs) k bi bv = argmaxGo xs (k + 1) bi bv := by
        simp only [argmaxGo, if_neg hlt]
      rw [hred]
      refine ⟨ih1, ?_, ?_⟩
      · intro j hj
        cases j with
        | zero => exact le_trans (not_lt.mp hlt) ih1
        | succ j' => exact ih2 j' (by simpa using hj)
      · rcases ih3 with heq | ⟨j₂, hj₂, hidx, hval, hgt, hstrict⟩
        · exact Or.inl heq
        · refine Or.inr ⟨j₂ + 1, by simpa using hj₂, by omega, hval, hgt, ?_⟩
          intro j' hj'
          cases j' with
          | zero => exact lt_of_le_of_lt (not_lt.mp hlt) hgt
          | succ j'' => exact hstrict j'' (by omega)

/-- `np.argmax` over a nonempty list returns the index and value of the
maximum, with ties broken by the lowest index (first occurrence). -/
theorem argmaxFirst_spec (l : List ℝ) (hne : l ≠ []) :
    ∃ i s, argmaxFirst l = some (i, s) ∧ i < l.length ∧ l.getD i 0 = s
      ∧ (∀ j, j < l.length → l.getD j 0 ≤ s)
      ∧ (∀ j, j < i → l.getD j 0 < s) := by
  cases l with
  | nil => exact absurd rfl hne
  | cons x xs =>
    obtain ⟨h1, h2, h3⟩ := argmaxGo_spec xs 1 0 x
    refine ⟨(argmaxGo xs 1 0 x).1, (argmaxGo xs 1 0 x).2, rfl, ?_, ?_, ?_, ?_⟩
    · rcases h3 with heq | ⟨j, hj, hidx, _, _, _⟩
      · rw [heq]
        simp
      · rw [hidx]
        simp only [List.length_cons]
        omega
    · rcases h3 with heq | ⟨j, hj, hidx, hval, _, _⟩
      · rw [heq]
        rfl
      · rw [hidx, hval, Nat.add_comm]
        rfl
    · intro j hj
      cases j with
      | zero => exact h1
      | succ j' => exact h2 j' (by simpa using hj)
    · intro j hj
      rcases h3 with heq | ⟨j₂, hj₂, hidx, hval, hgt, hstrict⟩
      · rw [heq] at hj
        simp at hj
      · rw [hidx] at hj
        cases j with
        | zero => exact hgt
        | succ j' => exact hstrict j' (by omega)

/-- Claim C8: the similarity search of `__call__` embeds the query, computes
the cosine similarity against every row of the document matrix, and returns
the metadata of the row with the maximum similarity, breaking ties by the
lowest row index (the first-occurrence semantics of `np.argmax`); with a
zero-row matrix it fails (the spec's `EmptyCorpusError`). -/
theorem C8_best_match (e : Engine) (q : String) (M : List (List ℝ))
    (hM : e.doc_vectors = some M) (v : List ℝ) (hq : embed e q = .ok v) :
    (M = [] → callGuesser e q = .error .emptyCorpus)
    ∧ (M ≠ [] → ∃ i,
        i < M.length
        ∧ (∀ j, j < M.length →
            (M.map (fun row => cosSim v row)).getD j 0
              ≤ (M.map (fun row => cosSim v row)).getD i 0)
        ∧ (∀ j, j < i →
            (M.map (fun row => cosSim v row)).getD j 0
              < (M.map (fun row => cosSim v row)).getD i 0)
        ∧ callGuesser e q = .ok ⟨e.questions.getD i "", e.answers.getD i "",
            (M.map (fun row => cosSim v row)).getD i 0⟩) := by
  constructor
  · intro hMnil
    subst hMnil
    simp [callGuesser, hM, hq, argmaxFirst]
  · intro hMne
    have hsne : (M.map (fun row => cosSim v row)) ≠ [] := by
      simpa using hMne
    obtain ⟨i, s, hsome, hilt, hval, hub, hstrict⟩ := argmaxFirst_spec _ hsne
    refine ⟨i, by simpa using hilt, ?_, ?_, ?_⟩
    · intro j hj
      rw [hval]
      exact hub j (by simpa using hj)
    · intro j hj
      rw [hval]
      exact hstrict j hj
    · simp only [callGuesser, hM, hq, hsome]
      rw [hval]

/-- A query with no in-vocabulary tokens embeds to the zero vector on
`engC8` (nothing survives the in-vocabulary filter). -/
theorem embed_engC8_zzz : embed engC8 "zzz" = .ok [0, 0] := by
  have htoks : (engC8.tokenizer "zzz").filter
      (fun x => (alookup engC8.vocab x).isSome) = [] := rfl
  simp only [embed, htoks]
  rw [show npZeros engC8.vocab_size = Except.ok [(0 : ℝ), 0] from rfl,
    show dedupFirst [] = [] from by simp [dedupFirst]]
  rfl

/-- Witness for `C8_best_match` at the engine `engC8` (two all-zero rows)
and the query `"zzz"` (embedding to the zero vector). -/
theorem C8_witness :
    (([[(0 : ℝ), 0], [0, 0]] : List (List ℝ)) = [] →
      callGuesser engC8 "zzz" = .error .emptyCorpus)
    ∧ (([[(0 : ℝ), 0], [0, 0]] : List (List ℝ)) ≠ [] → ∃ i,
        i < ([[(0 : ℝ), 0], [0, 0]] : List (List ℝ)).length
        ∧ (∀ j, j < ([[(0 : ℝ), 0], [0, 0]] : List (List ℝ)).length →
            (([[(0 : ℝ), 0], [0, 0]] : List (List ℝ)).map
              (fun row => cosSim [0, 0] row)).getD j 0
              ≤ (([[(0 : ℝ), 0], [0, 0]] : List (List ℝ)).map
                (fun row => cosSim [0, 0] row)).getD i 0)
        ∧ (∀ j, j < i →
            (([[(0 : ℝ), 0], [0, 0]] : List (List ℝ)).map
              (fun row => cosSim [0, 0] row)).getD j 0
              < (([[(0 : ℝ), 0], [0, 0]] : List (List ℝ)).map
                (fun row => cosSim [0, 0] row)).getD i 0)
        ∧ callGuesser engC8 "zzz"
            = .ok ⟨engC8.questions.getD i "", engC8.answers.getD i "",
                (([[(0 : ℝ), 0], [0, 0]] : List (List ℝ)).map
                  (fun row => cosSim [0, 0] row)).getD i 0⟩) :=
  C8_best_match engC8 "zzz" [[0, 0], [0, 0]] rfl [0, 0] embed_engC8_zzz

/-- The list dot product as a finite sum over indices. -/
theorem dotL_eq_sum :
    ∀ (q d : List ℝ), dotL q d
      = ∑ i in Finset.range (min q.length d.length), q.getD i 0 * d.getD i 0
  | [], d => by simp [dotL]
  | a :: q', [] => by simp [dotL]
  | a :: q', b :: d' => by
    show a * b + dotL q' d' = _
    rw [dotL_eq_sum q' d']
    have hmin : min (a :: q').length (b :: d').length
        = min q'.length d'.length + 1 := by
      simp [Nat.succ_min_succ]
    rw [hmin, Finset.sum_range_succ']
    simp only [List.getD_cons_succ, List.getD_cons_zero]
    ring

/-- A dot product of a vector with itself is non-negative. -/
theorem dotL_self_nonneg : ∀ (v : List ℝ), 0 ≤ dotL v v
  | [] => le_refl 0
  | x :: v' => by
    show 0 ≤ x * x + dotL v' v'
    have h := dotL_self_nonneg v'
    nlinarith [mul_self_nonneg x]

/-- Norms are non-negative. -/
theorem normL_nonneg (v : List ℝ) : 0 ≤ normL v := Real.sqrt_nonneg _

/-- The norm as a square root of a sum of squares. -/
theorem normL_eq (q : List ℝ) :
    normL q = Real.sqrt (∑ i in Finset.range q.length, q.getD i 0 ^ 2) := by
  rw [normL, dotL_eq_sum, min_self]
  congr 1
  refine Finset.sum_congr rfl fun i _ => ?_
  rw [pow_two]

/-- Cauchy–Schwarz for the list dot product. -/
theorem dotL_le_norm_mul_norm (q d : List ℝ) :
    dotL q d ≤ normL q * normL d := by
  rw [dotL_eq_sum, normL_eq, normL_eq]
  calc ∑ i in Finset.range (min q.length d.length), q.getD i 0 * d.getD i 0
      ≤ Real.sqrt (∑ i in Finset.range (min q.length d.length), q.getD i 0 ^ 2)
        * Real.sqrt (∑ i in Finset.range (min q.length d.length), d.getD i 0 ^ 2) :=
        Real.sum_mul_le_sqrt_mul_sqrt _ _ _
    _ ≤ Real.sqrt (∑ i in Finset.range q.length, q.getD i 0 ^ 2)
        * Real.sqrt (∑ i in Finset.range d.length, d.getD i 0 ^ 2) := by
        apply mul_le_mul
        · exact Real.sqrt_le_sqrt (Finset.sum_le_sum_of_subset_of_nonneg
            (Finset.range_subset.mpr (Nat.min_le_left _ _))
            (fun i _ _ => sq_nonneg _))
        · exact Real.sqrt_le_sqrt (Finset.sum_le_sum_of_subset_of_nonneg
            (Finset.range_subset.mpr (Nat.min_le_right _ _))
            (fun i _ _ => sq_nonneg _))
        · exact Real.sqrt_nonneg _
        · exact Real.sqrt_nonneg _

/-- Cosine similarity of two vectors with a non-negative dot product lies in
the unit interval (zero-norm vectors give similarity 0). -/
theorem cosSim_bounds (q d : List ℝ) (hdot : 0 ≤ dotL q d) :
    0 ≤ cosSim q d ∧ cosSim q d ≤ 1 := by
  unfold cosSim
  split
  · exact ⟨le_refl 0, zero_le_one⟩
  · next h =>
    push_neg at h
    have hq0 : 0 < normL q := lt_of_le_of_ne (normL_nonneg q) (Ne.symm h.1)
    have hd0 : 0 < normL d := lt_of_le_of_ne (normL_nonneg d) (Ne.symm h.2)
    constructor
    · exact div_nonneg hdot (mul_nonneg hq0.le hd0.le)
    · rw [div_le_one (mul_pos hq0 hd0)]
      exact dotL_le_norm_mul_norm q d

/-- If the entries of two vectors are non-negative multiples of a common
per-index base value, their dot product is non-negative (each term is
`c·c'·f i²`).  This is the sign-agreement the TF-IDF vectors enjoy. -/
theorem dotL_nonneg_of_shape :
    ∀ (q d : List ℝ) (f : Nat → ℝ),
      (∀ i : Nat, ∃ c : ℝ, 0 ≤ c ∧ q.getD i 0 = c * f i) →
      (∀ i : Nat, ∃ c : ℝ, 0 ≤ c ∧ d.getD i 0 = c * f i) →
      0 ≤ dotL q d
  | [], d, f, _, _ => by simp [dotL]
  | a :: q', [], f, _, _ => by simp [dotL]
  | a :: q', b :: d', f, hq, hd => by
    show 0 ≤ a * b + dotL q' d'
    obtain ⟨c1, hc1, he1⟩ := hq 0
    obtain ⟨c2, hc2, he2⟩ := hd 0
    simp only [List.getD_cons_zero] at he1 he2
    have h1 : 0 ≤ a * b := by
      have hab : a * b = (c1 * c2) * (f 0 * f 0) := by
        rw [he1, he2]
        ring
      rw [hab]
      exact mul_nonneg (mul_nonneg hc1 hc2) (mul_self_nonneg _)
    have h2 : 0 ≤ dotL q' d' :=
      dotL_nonneg_of_shape q' d' (fun i => f (i + 1))
        (fun i => by
          obtain ⟨c, hc, he⟩ := hq (i + 1)
          exact ⟨c, hc, by simpa [List.getD_cons_succ] using he⟩)
        (fun i => by
          obtain ⟨c, hc, he⟩ := hd (i + 1)
          exact ⟨c, hc, by simpa [List.getD_cons_succ] using he⟩)
    linarith

/-- `getD` of a mapped matrix row. -/
theorem getD_map_real (f : List ℝ → ℝ) :
    ∀ (M : List (List ℝ)) (i : Nat), i < M.length →
      (M.map f).getD i 0 = f (M.getD i [])
  | [], i, h => absurd h (by simp)
  | r :: M', 0, _ => rfl
  | r :: M', i + 1, h => getD_map_real f M' i (by simpa using h)

/-- An in-range `getD` of a matrix is a row of the matrix. -/
theorem getD_mem_rows :
    ∀ (M : List (List ℝ)) (i : Nat), i < M.length → M.getD i [] ∈ M
  | [], i, h => absurd h (by simp)
  | r :: M', 0, _ => List.mem_cons_self _ _
  | r :: M', i + 1, h =>
    List.mem_cons_of_mem _ (getD_mem_rows M' i (by simpa using h))

/-- Every entry of an `embed` output is a non-negative multiple of the idf
value of its index. -/
theorem embed_entry_shape (e : Engine) (tab : List (Nat × Nat))
    (hfin : e.vocab_final = true) (hdocs : e.docs_final = true)
    (htab : e.doc_freq = some tab)
    (hsize : e.vocab_size = (e.vocab.length : Int))
    (hrange : ∀ p ∈ e.vocab, p.2 < e.vocab.length)
    (hids : (e.vocab.map Prod.snd).Nodup)
    (text : String) (v : List ℝ) (hv : embed e text = .ok v) :
    ∀ i : Nat, ∃ c : ℝ, 0 ≤ c
      ∧ v.getD i 0 = c * inv_df e.total_docs ((alookup tab i).getD 0) := by
  obtain ⟨v', hv', _hlen, hset, hzero⟩ :=
    embed_spec e tab hfin hdocs htab hsize hrange hids text
  have hvv : v' = v := by
    rw [hv] at hv'
    injection hv' with h'
    exact h'.symm
  subst hvv
  intro i
  by_cases hbig : v'.length ≤ i
  · refine ⟨0, le_refl 0, ?_⟩
    rw [List.getD_eq_default _ _ hbig]
    ring
  · push_neg at hbig
    by_cases hcov : ∃ w, alookup e.vocab w = some i
        ∧ w ∈ (e.tokenizer text).filter (fun x => (alookup e.vocab x).isSome)
    · obtain ⟨w, hwi, hwmem⟩ := hcov
      refine ⟨(countA ((e.tokenizer text).filter
          (fun x => (alookup e.vocab x).isSome)) w : ℝ)
        / (((e.tokenizer text).filter
          (fun x => (alookup e.vocab x).isSome)).length : ℝ), ?_,
        hset w i hwi hwmem⟩
      exact div_nonneg (Nat.cast_nonneg _) (Nat.cast_nonneg _)
    · push_neg at hcov
      refine ⟨0, le_refl 0, ?_⟩
      rw [hzero i hcov]
      ring

/-- Claim C6 counterexample: TF-IDF weights are *not* all non-negative.  On
the trained-state engine `engC6` (one document, token `"b"` appearing in
it, so `idf = log10(1/(1+1)) < 0`), the query vector of `"b"` has the
negative entry `log10(1/2)` at id 0. -/
theorem C6_counterexample :
    ∃ v, embed engC6 "b" = .ok v ∧ v.getD 0 0 < 0 := by
  obtain ⟨v, hv, _, hset, _⟩ := embed_spec engC6 [(0, 1)] rfl rfl rfl rfl
    (by decide) (by decide) "b"
  refine ⟨v, hv, ?_⟩
  have h0 := hset "b" 0 rfl (by decide)
  have htoks : (engC6.tokenizer "b").filter
      (fun x => (alookup engC6.vocab x).isSome) = ["b"] := rfl
  rw [htoks] at h0
  rw [show countA ["b"] "b" = 1 from rfl] at h0
  rw [show (["b"] : List String).length = 1 from rfl] at h0
  have htd : inv_df engC6.total_docs ((alookup [(0, 1)] 0).getD 0)
      = inv_df 1 1 := rfl
  rw [htd] at h0
  have hneg : inv_df 1 1 < 0 := by
    have h1 : inv_df 1 1 = Real.log (1 / 2) / Real.log 10 := by
      simp only [inv_df, log10]
      norm_num
    rw [h1]
    exact div_neg_of_neg_of_pos
      (Real.log_neg (by norm_num) (by norm_num))
      (Real.log_pos (by norm_num))
  rw [h0]
  have hone : ((1 : Nat) : ℝ) / ((1 : Nat) : ℝ) = 1 := by norm_num
  rw [hone, one_mul]
  exact hneg

/-- Claim C6, amended: TF-IDF weights can be negative (a token occurring in
every document gets `idf = log10(total/(1+df)) < 0`, as the C6
counterexample above shows), but the query vector and every document row are
entrywise non-negative multiples of the *same* per-id idf values, so their
dot product is still non-negative, and the confidence returned by
`__call__` — the cosine similarity of the query with the best row — still
lies in [0.0, 1.0]. -/
theorem C6_confidence_in_unit_interval (e : Engine) (tab : List (Nat × Nat))
    (hfin : e.vocab_final = true) (hdocs : e.docs_final = true)
    (htab : e.doc_freq = some tab)
    (hsize : e.vocab_size = (e.vocab.length : Int))
    (hrange : ∀ p ∈ e.vocab, p.2 < e.vocab.length)
    (hids : (e.vocab.map Prod.snd).Nodup)
    (M : List (List ℝ)) (hM : e.doc_vectors = some M)
    (hrows : ∀ r ∈ M, ∃ t, embed e t = .ok r)
    (q : String) (g : Guess) (hg : callGuesser e q = .ok g) :
    0 ≤ g.confidence ∧ g.confidence ≤ 1 := by
  cases hqe : embed e q with
  | error er =>
    exfalso
    simp [callGuesser, hM, hqe] at hg
  | ok v =>
    cases hs : argmaxFirst (M.map (fun row => cosSim v row)) with
    | none =>
      exfalso
      simp [callGuesser, hM, hqe, hs] at hg
    | some p =>
      obtain ⟨i, s⟩ := p
      have hgv : g.confidence = s := by
        simp only [callGuesser, hM, hqe, hs] at hg
        injection hg with h'
        rw [← h']
      have hMne : M ≠ [] := by
        intro hnil
        subst hnil
        simp [argmaxFirst] at hs
      have hsne : (M.map (fun row => cosSim v row)) ≠ [] := by
        simpa using hMne
      obtain ⟨i', s', hsome, hilt, hval, _, _⟩ := argmaxFirst_spec _ hsne
      rw [hs] at hsome
      injection hsome with hpair
      have hii : i' = i := (congrArg Prod.fst hpair).symm
      have hss : s' = s := (congrArg Prod.snd hpair).symm
      subst hii
      subst hss
      have hilt' : i' < M.length := by simpa using hilt
      have hrow : (M.map (fun row => cosSim v row)).getD i' 0
          = cosSim v (M.getD i' []) :=
        getD_map_real _ M i' hilt'
      obtain ⟨t, ht⟩ := hrows _ (getD_mem_rows M i' hilt')
      have hqshape := embed_entry_shape e tab hfin hdocs htab hsize hrange
        hids q v hqe
      have hdshape := embed_entry_shape e tab hfin hdocs htab hsize hrange
        hids t (M.getD i' []) ht
      have hdot : 0 ≤ dotL v (M.getD i' []) :=
        dotL_nonneg_of_shape v (M.getD i' [])
          (fun j => inv_df e.total_docs ((alookup tab j).getD 0))
          hqshape hdshape
      have hbounds := cosSim_bounds v (M.getD i' []) hdot
      have hseq : s' = cosSim v (M.getD i' []) := by
        rw [← hval, hrow]
      rw [hgv, hseq]
      exact hbounds

/-- Evaluation of `__call__` on `engC8` with the query `"zzz"`: both rows
have similarity 0 to the zero query vector, and the tie breaks to the first
row. -/
theorem callGuesser_engC8_zzz :
    callGuesser engC8 "zzz" = .ok ⟨"q0", "A", 0⟩ := by
  have hcs : cosSim [(0 : ℝ), 0] [(0 : ℝ), 0] = 0 := by
    simp [cosSim, normL, dotL]
  simp only [callGuesser]
  rw [show engC8.doc_vectors = some [[(0 : ℝ), 0], [0, 0]] from rfl,
    embed_engC8_zzz]
  simp only [List.map_cons, List.map_nil, hcs]
  simp [argmaxFirst, argmaxGo]
  exact ⟨rfl, rfl⟩

/-- Witness for `C6_confidence_in_unit_interval` at the engine `engC8` and
the query `"zzz"` (confidence 0). -/
theorem C6_witness :
    0 ≤ (Guess.mk "q0" "A" 0).confidence
      ∧ (Guess.mk "q0" "A" 0).confidence ≤ 1 :=
  C6_confidence_in_unit_interval engC8 [(0, 1)] rfl rfl rfl rfl
    (by decide) (by decide) [[0, 0], [0, 0]] rfl
    (fun r hr => by
      rcases List.mem_cons.mp hr with h | h
      · exact ⟨"zzz", by rw [h]; exact embed_engC8_zzz⟩
      · rcases List.mem_cons.mp h with h2 | h2
        · exact ⟨"zzz", by rw [h2]; exact embed_engC8_zzz⟩
        · exact absurd h2 (List.not_mem_nil r))
    "zzz" ⟨"q0", "A", 0⟩ callGuesser_engC8_zzz

/-- Claim C9: the save/load round trip does *not* preserve query results.
`save` pickles `_vocab`, `_doc_vectors` and `_doc_counts` only, and `load`
restores exactly those; the document-frequency state read by `inv_docfreq`
is neither saved nor recreated.  On the trained-state engine `engC9` the
query `"a"` is answerable ( `__call__` returns a guess), `load (save engC9)`
succeeds and yields `engC9loaded` — identical vocabulary and matrix — but
the same query on the loaded engine raises `AttributeError` inside
`embed`/`inv_docfreq`. -/
theorem C9_roundtrip_loses_idf_state :
    (∃ g, callGuesser engC9 "a" = .ok g)
    ∧ load (initEngine 10 2 wsTok id) (save engC9) = .ok engC9loaded
    ∧ callGuesser engC9loaded "a" = .error .attributeError := by
  refine ⟨?_, rfl, ?_⟩
  · obtain ⟨v, hv, _, _, _⟩ := embed_spec engC9 [(0, 1)] rfl rfl rfl rfl
      (by decide) (by decide) "a"
    refine ⟨⟨engC9.questions.getD 0 "", engC9.answers.getD 0 "",
      cosSim v [0, 0]⟩, ?_⟩
    simp only [callGuesser]
    rw [show engC9.doc_vectors = some [[(0 : ℝ), 0]] from rfl, hv]
    rfl
  · have htoks : (engC9loaded.tokenizer "a").filter
        (fun x => (alookup engC9loaded.vocab x).isSome) = ["a"] := rfl
    have hded : dedupFirst ["a"] = ["a"] := by
      rw [dedupFirst]
      simp [dedupFirst]
    have hemb : embed engC9loaded "a" = .error .attributeError := by
      simp only [embed, htoks]
      rw [show npZeros engC9loaded.vocab_size = Except.ok [(0 : ℝ), 0] from rfl,
        hded]
      rfl
    simp only [callGuesser]
    rw [show engC9loaded.doc_vectors = some [[(0 : ℝ), 0]] from rfl, hemb]

/-- Claim C1: the claim says `scan_document` increments, for each *distinct*
token-id of the document, an id-keyed document-frequency counter by exactly
one, regardless of the number of occurrences.  The code instead increments
the string-keyed global count table `_doc_counts` once *per occurrence* (and
never touches any id-keyed table): scanning the single document `"a a"`,
whose only distinct in-vocabulary token is `"a"`, raises the counter of
`"a"` from 2 to 4 (an increment of 2, not 1), while `doc_freq` stays absent;
only the total-documents counter behaves as claimed (0 to 1). -/
theorem C1_scan_document_counts_occurrences :
    scan_document engVocabFinal "a a" =
      .ok { engVocabFinal with doc_counts := [("a", 4)], total_docs := 1 } := by
  rfl

/-- Claim C2: in every reachable finalized state, `inv_docfreq` raises
`AttributeError` instead of returning 0.0 or the log formula, because
`__init__` creates only `_doc_counts` and no method of the class ever
assigns `_doc_freq`.  The first conjunct shows the state `engDocsFinal` is
reached by an actual training pipeline (`vocab_seen` twice, `finalize_vocab`,
`scan_document`, `finalize_docs`); the second shows `inv_docfreq` then fails
on vocabulary id 0 (hence for an id with zero recorded document frequency it
raises rather than returning 0.0). -/
theorem C2_inv_docfreq_raises_attributeError :
    vocab_seen engInit "a" 1 = .ok engSeen1
    ∧ vocab_seen engSeen1 "a" 1 = .ok engVocabCounted
    ∧ finalize_vocab engVocabCounted = .ok engVocabFinal
    ∧ scan_document engVocabFinal "a" = .ok engScanned
    ∧ finalize_docs engScanned = engDocsFinal
    ∧ inv_docfreq engDocsFinal 0 = .error .attributeError := by
  refine ⟨rfl, rfl, ?_, rfl, rfl, rfl⟩
  have hms : sortByCountDesc engVocabCounted.doc_counts = [("a", 2)] := by
    simp [sortByCountDesc, engVocabCounted, engInit, initEngine]
  simp only [finalize_vocab, hms]
  rfl

/-- Claim C7 counterexample: with a fixed total of 10 documents, the value of
line 253 of the source *increases* from document frequency 0 (where it is 0)
to document frequency 1 (where it is `log10 5 > 0`), so it is not
monotonically non-increasing over all non-negative document frequencies. -/
theorem C7_counterexample : inv_df 10 0 < inv_df 10 1 := by
  have h0 : inv_df 10 0 = 0 := by simp [inv_df]
  have h1 : inv_df 10 1 = Real.log 5 / Real.log 10 := by
    simp only [inv_df, log10]
    norm_num
  rw [h0, h1]
  exact div_pos (Real.log_pos (by norm_num)) (Real.log_pos (by norm_num))

/-- Claim C7, amended: for a fixed total document count, `inv_df` is
monotonically non-increasing as the document frequency increases over the
*positive* document frequencies (the claim's range must exclude the jump
from the guarded value 0 at document frequency 0), and it returns exactly
0.0 at document frequency 0. -/
theorem C7_inv_df_antitone_on_positive (total a b : Nat) (h1 : 1 ≤ a)
    (hab : a ≤ b) : inv_df total b ≤ inv_df total a ∧ inv_df total 0 = 0 := by
  refine ⟨?_, by simp [inv_df]⟩
  have ha : ¬(a = 0) := by omega
  have hb : ¬(b = 0) := by omega
  simp only [inv_df, ha, hb, if_false, log10]
  have hlog10 : (0 : ℝ) < Real.log 10 := Real.log_pos (by norm_num)
  rcases Nat.eq_zero_or_pos total with h | h
  · subst h
    simp
  · have htot : (0 : ℝ) < (total : ℝ) := by exact_mod_cast h
    have hb1 : (0 : ℝ) < 1 + (b : ℝ) := by positivity
    have ha1 : (0 : ℝ) < 1 + (a : ℝ) := by positivity
    have hdiv : (total : ℝ) / (1 + (b : ℝ)) ≤ (total : ℝ) / (1 + (a : ℝ)) := by
      apply div_le_div_of_nonneg_left htot.le ha1
      exact_mod_cast Nat.add_le_add_left hab 1
    have hposb : (0 : ℝ) < (total : ℝ) / (1 + (b : ℝ)) := div_pos htot hb1
    exact div_le_div_of_nonneg_right (Real.log_le_log hposb hdiv) hlog10.le

/-- Witness for `C7_inv_df_antitone_on_positive` at total = 10, a = 1, b = 2. -/
theorem C7_witness :
    inv_df 10 2 ≤ inv_df 10 1 ∧ inv_df 10 0 = 0 :=
  C7_inv_df_antitone_on_positive 10 1 2 (by norm_num) (by norm_num)

end ToyTfIdf
